import Mathlib

/-!
Verification of the EPUB margin/hyphenation tool (two Python scripts:
`modify_epub_margins.py`, the CLI tool, and `interactive_epub_modifier.py`,
the interactive tool) against its natural-language specification.

The model is a shallow embedding:
* an EPUB archive is a list of (entry name, byte content) pairs, with text
  content represented as `String` (the tool reads and writes UTF-8 text and
  copies all other entries byte for byte, so `String` concatenation models
  the append performed on the stylesheet);
* the extracted temporary directory is the same association list, since the
  tool only ever touches one file in it;
* the rebuilt ZIP is an ordered list of entries carrying a compression mode;
* the interactive menu loop is a function from the list of user input lines
  to the list of observable processing events.
-/

namespace EpubKindle

/-! ### CSS fragment generators

`get_margin_css`, `get_no_hyphenation_css` and `get_combined_css` are the
three template functions.  Each Python f-string is transcribed as a
concatenation of string literals with `toString margin_size` in the holes;
the segmentation is chosen at natural boundaries and the concatenation of
the segments is exactly the f-string text (checked by `get_margin_css_text`
and friends below).  A literal `{` is written `\x7b` and `}` is `\x7d`. -/

/-- Margin CSS fragment, from `get_margin_css` (identical in both scripts). -/
def get_margin_css (margin_size : Int) : String :=
  "\n/* Уменьшенные поля для Kindle */\n" ++
  "html, body \x7b" ++
  "\n    " ++
  "margin-left: -" ++ toString margin_size ++ "px !important;" ++
  "\n    " ++
  "margin-right: -" ++ toString margin_size ++ "px !important;" ++
  "\n    " ++
  "padding: 0 !important;" ++
  "\n\x7d\n"

/-- Hyphenation-disabling CSS fragment, from `get_no_hyphenation_css`
(interactive tool). -/
def get_no_hyphenation_css : String :=
  "\n/* Отключение переносов слов для Kindle */\n* \x7b\n    -webkit-hyphens: none !important;\n    -moz-hyphens: none !important;\n    -ms-hyphens: none !important;\n    hyphens: none !important;\n    word-break: keep-all !important;\n    overflow-wrap: normal !important;\n\x7d\n\np, div, span, td, th \x7b\n    -webkit-hyphens: none !important;\n    -moz-hyphens: none !important;\n    -ms-hyphens: none !important;\n    hyphens: none !important;\n    word-break: keep-all !important;\n\x7d\n"

/-- Combined CSS fragment, from `get_combined_css` (interactive tool).
The source spells the whole text out again in a single f-string; the model
does the same (it is not defined via the other two generators). -/
def get_combined_css (margin_size : Int) : String :=
  "\n/* Уменьшенные поля для Kindle */\n" ++
  "html, body \x7b" ++
  "\n    " ++
  "margin-left: -" ++ toString margin_size ++ "px !important;" ++
  "\n    " ++
  "margin-right: -" ++ toString margin_size ++ "px !important;" ++
  "\n    " ++
  "padding: 0 !important;" ++
  "\n\x7d\n\n/* Отключение переносов слов для Kindle */\n* \x7b\n    -webkit-hyphens: none !important;\n    -moz-hyphens: none !important;\n    -ms-hyphens: none !important;\n    hyphens: none !important;\n    word-break: keep-all !important;\n    overflow-wrap: normal !important;\n\x7d\n\np, div, span, td, th \x7b\n    -webkit-hyphens: none !important;\n    -moz-hyphens: none !important;\n    -ms-hyphens: none !important;\n    hyphens: none !important;\n    word-break: keep-all !important;\n\x7d\n"

/-- Substring relation on strings: `sub` occurs contiguously inside `s`. -/
def SubstrOf (sub s : String) : Prop :=
  ∃ pre post, s = pre ++ sub ++ post

/-! ### Small Python-semantics string helpers -/

/-- Boolean list-of-characters version of "is a prefix of". -/
def listPrefixB : List Char → List Char → Bool
  | [], _ => true
  | _ :: _, [] => false
  | a :: as, b :: bs => a == b && listPrefixB as bs

/-- Helper for `strContains`: does `needle` occur in `hay` (both as char
lists)?  Models Python's `needle in hay` substring test. -/
def containsChars (needle : List Char) : List Char → Bool
  | [] => listPrefixB needle []
  | c :: rest => listPrefixB needle (c :: rest) || containsChars needle rest

/-- Python `needle in hay` on strings. -/
def strContains (hay needle : String) : Bool :=
  containsChars needle.data hay.data

/-- Python `s.endswith(suffix)`. -/
def strEndsWith (s suffix : String) : Bool :=
  listPrefixB suffix.data.reverse s.data.reverse

/-- Python `s.startswith(pre)`. -/
def strStartsWith (s pre : String) : Bool :=
  listPrefixB pre.data s.data

/-! ### Archive model

An archive (and equally the temporary directory it is extracted to) is a
list of (entry path, content) pairs.  Paths use forward slashes.  `validEpub`
states the well-formedness assumptions under which this flat map is a
faithful model of the extracted directory tree: entry names are distinct,
are relative non-empty slash-separated file paths, no entry name is also
needed as a directory by another entry, and no root file is named `OPS`
(which would make the tool's `os.makedirs("OPS")` fall over in the branch
that creates a missing stylesheet). -/

/-- An archive or extracted directory: entry path with content. -/
abbrev Archive := List (String × String)

/-- Content of the file at path `p`, if present.  (For a `validEpub` archive
names are distinct, so first match equals the effective extracted file.) -/
def lookupFS : Archive → String → Option String
  | [], _ => none
  | e :: rest, p => if e.1 = p then some e.2 else lookupFS rest p

/-- The fixed, ordered stylesheet search list from `find_css_file`
(identical in both scripts). -/
def cssCandidates : List String :=
  ["OPS/style.css", "OEBPS/style.css", "styles/style.css", "css/style.css"]

/-- Model of `find_css_file`: the first candidate path that exists in the
extracted directory. -/
def find_css_file (fs : Archive) : Option String :=
  cssCandidates.find? (fun p => (lookupFS fs p).isSome)

/-- Placeholder line written when a stylesheet has to be created. -/
def autoCssText : String := "/* Автоматически созданный CSS */\n"

/-- The directory after the stylesheet step of `process_epub`: append `frag`
to the located stylesheet, or create `OPS/style.css` with the placeholder
line and append `frag` to it. -/
def fsAfterCss (fs : Archive) (frag : String) : Archive :=
  match find_css_file fs with
  | some p => fs.map (fun e => if e.1 = p then (e.1, e.2 ++ frag) else e)
  | none => fs ++ [("OPS/style.css", autoCssText ++ frag)]

/-- Final path component of a path (what `os.walk` yields as the file
name). -/
def basename (p : String) : String :=
  String.mk ((p.data.reverse.takeWhile (fun c => c != '/')).reverse)

/-- ZIP entry compression mode. -/
inductive ZComp
  | stored
  | deflated
  deriving DecidableEq, Repr

/-- One entry of the rebuilt ZIP archive, in write order. -/
structure ZEntry where
  name : String
  content : String
  comp : ZComp
  deriving DecidableEq, Repr

/-- Model of the ZIP-rebuilding loop of `process_epub`: if a root `mimetype`
file exists it is written first, stored; then the directory walk writes every
file whose basename is not `mimetype`, deflated. -/
def repack (fs : Archive) : List ZEntry :=
  (match lookupFS fs "mimetype" with
   | some d => [⟨"mimetype", d, ZComp.stored⟩]
   | none => []) ++
  (fs.filter (fun e => basename e.1 != "mimetype")).map
    (fun e => ⟨e.1, e.2, ZComp.deflated⟩)

/-- The archive transform shared by both scripts' `process_epub`: extract,
locate/create and append to the stylesheet, rebuild the ZIP. -/
def processArchive (ar : Archive) (frag : String) : List ZEntry :=
  repack (fsAfterCss ar frag)

/-- Name/content view of the rebuilt archive. -/
def entryPairs (l : List ZEntry) : List (String × String) :=
  l.map (fun z => (z.name, z.content))

/-- The stylesheet path `process_epub` appends to. -/
def resolvedCssPath (ar : Archive) : String :=
  (find_css_file ar).getD "OPS/style.css"

/-- The stylesheet content that precedes the appended fragment: the original
bytes when a stylesheet was found, the placeholder line otherwise. -/
def resolvedCssBase (ar : Archive) : String :=
  match find_css_file ar with
  | some p => (lookupFS ar p).getD ""
  | none => autoCssText

/-- Well-formedness of a source archive (see the section comment). -/
def validEpub (ar : Archive) : Prop :=
  (ar.map Prod.fst).Nodup ∧
  ∀ e ∈ ar, e.1 ≠ "" ∧ e.1.data.head? ≠ some '/' ∧ e.1.data.getLast? ≠ some '/' ∧
    e.1 ≠ "OPS" ∧
    ∀ e2 ∈ ar, listPrefixB (e.1.data ++ ['/']) e2.1.data = false

instance validEpub.decidable (ar : Archive) : Decidable (validEpub ar) := by
  unfold validEpub
  infer_instance

/-- CLI-tool instantiation of the transform (`modify_epub_margins.py`,
`process_epub`): the appended fragment is the margin CSS. -/
def cliProcessEpub (ar : Archive) (margin_size : Int) : List ZEntry :=
  processArchive ar (get_margin_css margin_size)

/-- Modification kinds of the interactive tool. -/
inductive ModType
  | margins
  | hyphens
  | both
  deriving DecidableEq, Repr

/-- CSS fragment chosen by the interactive `process_epub` for a modification
kind. -/
def cssFor : ModType → Int → String
  | ModType.margins, m => get_margin_css m
  | ModType.hyphens, _ => get_no_hyphenation_css
  | ModType.both, m => get_combined_css m

/-- Interactive-tool instantiation of the transform
(`interactive_epub_modifier.py`, `process_epub`). -/
def iaProcessEpub (ar : Archive) (mt : ModType) (margin_size : Int) : List ZEntry :=
  processArchive ar (cssFor mt margin_size)

/-! ### Batch loop model (both `main` functions)

A file handed to the batch loop either opens as a ZIP (`some archive`) or
raises before any write (`none`, e.g. `zipfile.BadZipFile` for a corrupt
file).  The loop body is `try: process_epub(...); success += 1 except: log`,
so a failure is caught, produces no output, and the loop continues. -/

/-- One `process_epub` call as seen by the batch loop. -/
def tryProcess (f : Option Archive) (frag : String) : Except String (List ZEntry) :=
  match f with
  | none => Except.error "BadZipFile"
  | some ar => Except.ok (processArchive ar frag)

/-- The batch loop: returns the reported success count and the outputs
produced, in file order. -/
def runBatch (files : List (Option Archive)) (frag : String) :
    Nat × List (List ZEntry) :=
  match files with
  | [] => (0, [])
  | f :: rest =>
    let r := runBatch rest frag
    match tryProcess f frag with
    | Except.ok out => (r.1 + 1, out :: r.2)
    | Except.error _ => r

/-! ### CLI output path (`modify_epub_margins.py`, `process_epub` header)

`output_path = epub_path.parent / f"{epub_path.stem}-upgrade.epub"`. -/

/-- Split a character list at the last occurrence of `sep`: the parts before
and after it (the separator removed, none of `sep` left in the after part);
`none` when `sep` does not occur. -/
def splitLastChar (sep : Char) : List Char → Option (List Char × List Char)
  | [] => none
  | c :: rest =>
    match splitLastChar sep rest with
    | some (b, a) => some (c :: b, a)
    | none => if c = sep then some ([], rest) else none

/-- Python `PurePath.name` for a POSIX path string: the final component. -/
def pyName (p : String) : String :=
  match splitLastChar '/' p.data with
  | some (_, a) => String.mk a
  | none => p

/-- Python `PurePath.stem`: the final component without its extension;
pathlib keeps the whole name when the last dot is leading or trailing. -/
def pyStem (name : String) : String :=
  match splitLastChar '.' name.data with
  | some (b, a) => if b ≠ [] ∧ a ≠ [] then String.mk b else name
  | none => name

/-- The CLI output path `parent / (stem + "-upgrade.epub")`. -/
def cliOutputPath (p : String) : String :=
  match splitLastChar '/' p.data with
  | some (d, _) => String.mk d ++ "/" ++ (pyStem (pyName p) ++ "-upgrade.epub")
  | none => pyStem (pyName p) ++ "-upgrade.epub"

/-- The set of paths a CLI `process_epub` call writes to: only the output
path is opened for writing (the stylesheet append happens inside the
throwaway temporary directory). -/
def cliWrites (p : String) : List String := [cliOutputPath p]

/-! ### Python string primitives used by argument parsing and the menus -/

/-- Python `str.lower` for the character ranges this tool encounters
(ASCII letters and the basic Cyrillic capitals А-Я and Ё). -/
def charLower (c : Char) : Char :=
  if 'A' ≤ c ∧ c ≤ 'Z' then Char.ofNat (c.toNat + 32)
  else if 'А' ≤ c ∧ c ≤ 'Я' then Char.ofNat (c.toNat + 32)
  else if c = 'Ё' then 'ё'
  else c

/-- Python `str.lower` on a string. -/
def pyLower (s : String) : String :=
  String.mk (s.data.map charLower)

/-- Python `str.strip()` (whitespace at both ends removed). -/
def pyStrip (s : String) : String :=
  String.mk (((s.data.dropWhile Char.isWhitespace).reverse.dropWhile
    Char.isWhitespace).reverse)

/-- Digit-run acceptor continuation for `pyDigits`: after one digit, more
digits may follow, and an underscore is allowed only between digits. -/
def pyDigitsTail : List Char → Bool
  | [] => true
  | '_' :: rest =>
    match rest with
    | [] => false
    | c :: rest2 => c.isDigit && pyDigitsTail rest2
  | c :: rest => c.isDigit && pyDigitsTail rest

/-- Acceptor for the digit part of a Python integer literal
(`digit+` with single underscores between digits). -/
def pyDigits : List Char → Bool
  | [] => false
  | c :: rest => c.isDigit && pyDigitsTail rest

/-- Numeric value of an accepted digit run (underscores skipped). -/
def digitsVal (cs : List Char) : Nat :=
  cs.foldl (fun acc c => if c = '_' then acc else acc * 10 + (c.toNat - 48)) 0

/-- Python `int(s)` for ASCII-digit inputs: strip whitespace, optional
sign, digits with single interior underscores; `none` models `ValueError`. -/
def pyToInt (s : String) : Option Int :=
  match (pyStrip s).data with
  | '+' :: rest => if pyDigits rest then some (Int.ofNat (digitsVal rest)) else none
  | '-' :: rest => if pyDigits rest then some (-(Int.ofNat (digitsVal rest))) else none
  | cs => if pyDigits cs then some (Int.ofNat (digitsVal cs)) else none

/-! ### File discovery (`get_epub_files` of each script) -/

/-- `glob.glob("*.epub")` over a directory listing: `*` does not match a
leading dot. -/
def globEpub (listing : List String) : List String :=
  listing.filter (fun f => !strStartsWith f "." && strEndsWith f ".epub")

/-- `get_epub_files` of the CLI script: the bare glob, no exclusion. -/
def cliGetEpubFiles (listing : List String) : List String :=
  globEpub listing

/-- The output-marker suffixes the interactive script's discovery excludes. -/
def iaMarkers : List String :=
  ["-margins.epub", "-no-hyphens.epub", "-enhanced.epub", "-upgrade.epub"]

/-- `get_epub_files` of the interactive script: the glob minus every file
name containing one of the markers. -/
def iaGetEpubFiles (listing : List String) : List String :=
  (globEpub listing).filter (fun f => !(iaMarkers.any (fun mk => strContains f mk)))

/-! ### CLI argument handling (`main` of `modify_epub_margins.py`)

`gl` models `glob.glob` on an explicit wildcard argument, `xs` models
`os.path.exists`, `listing` the working directory contents; the result is
`Except exitCode (margin, files)`, where an `error` is a `sys.exit` before
any file is processed. -/

/-- The argument `while` loop, with the accumulated explicit files and the
current margin value. -/
def parseArgs (gl : String → List String) :
    List String → List String → Int → Except Nat (List String × Int)
  | [], files, margin => Except.ok (files, margin)
  | a :: rest, files, margin =>
    if a = "--help" ∨ a = "-h" then Except.error 0
    else if a = "--margin" then
      match rest with
      | [] => Except.error 1
      | v :: rest2 =>
        match pyToInt v with
        | some m => parseArgs gl rest2 files m
        | none => Except.error 1
    else if a = "--all" then parseArgs gl rest files margin
    else if strContains a "*" then
      parseArgs gl rest
        (files ++ (gl a).filter (fun f => strEndsWith (pyLower f) ".epub")) margin
    else parseArgs gl rest (files ++ [a]) margin

/-- The tail of the CLI `main` after argument parsing: empty-list checks,
duplicate removal (`set(...)`), and the per-file
existence/extension/`-upgrade.epub` filter. -/
def cliResolve (xs : String → Bool) (files1 : List String) (margin : Int) :
    Except Nat (Int × List String) :=
  if files1.isEmpty then Except.error 1
  else if (files1.eraseDups.filter (fun f =>
      (xs f && strEndsWith (pyLower f) ".epub") &&
        !strEndsWith f "-upgrade.epub")).isEmpty then Except.error 1
  else Except.ok (margin, files1.eraseDups.filter (fun f =>
      (xs f && strEndsWith (pyLower f) ".epub") &&
        !strEndsWith f "-upgrade.epub"))

/-- `main` of the CLI script up to (and excluding) the batch loop: argument
parsing, the directory-scan fallback when no files were named or `--all` was
passed, then `cliResolve`. -/
def cliMain (gl : String → List String) (xs : String → Bool)
    (listing : List String) (args : List String) :
    Except Nat (Int × List String) :=
  match parseArgs gl args [] 20 with
  | Except.error c => Except.error c
  | Except.ok (files0, margin) =>
    cliResolve xs
      (if files0.isEmpty || args.contains "--all" then cliGetEpubFiles listing
       else files0) margin

/-- Hypothesis of the amended C8: scanning the arguments left to right
(as the loop does, with `--margin` consuming its value), a `--margin` whose
value is missing or unparseable is reached before any `--help`/`-h`. -/
inductive BadMargin : List String → Prop
  | missing : BadMargin ["--margin"]
  | bad (v : String) (rest : List String) (h : pyToInt v = none) :
      BadMargin ("--margin" :: v :: rest)
  | good (v : String) (rest : List String) (m : Int) (h : pyToInt v = some m)
      (hr : BadMargin rest) : BadMargin ("--margin" :: v :: rest)
  | skip (a : String) (rest : List String) (h1 : a ≠ "--margin")
      (h2 : a ≠ "--help") (h3 : a ≠ "-h") (hr : BadMargin rest) :
      BadMargin (a :: rest)

/-! ### Interactive menu loop (`main` of `interactive_epub_modifier.py`)

The loop is modelled as a function from the list of user input lines to the
list of observable events: each showing of the dedicated overwrite
confirmation prompt (with the user's normalized answer), and each start of a
batch run (with its output mode and selected files).  Every prompt helper
consumes at least one input line per visit, which the subtype bounds record
so the loop terminates on the input list length; exhausted input
(`EOFError`, which ends the Python process) yields the empty remainder. -/

/-- Output modes of the interactive tool. -/
inductive OutMode
  | folder
  | replace
  deriving DecidableEq, Repr

/-- Observable events of an interactive session. -/
inductive Ev
  | replacePrompt (ans : String)
  | procBatch (mode : OutMode) (files : List String)
  deriving DecidableEq, Repr

/-- The answers accepted by the overwrite confirmation
(`confirm_replace in ['yes', 'да']`, after strip+lower). -/
def affirmReplace (ans : String) : Bool :=
  ans = "yes" || ans = "да"

/-- The answers accepted by the start/continue confirmations
(`in ['y', 'yes', 'д', 'да']`, after strip+lower). -/
def affirmYes (ans : String) : Bool :=
  ans = "y" || ans = "yes" || ans = "д" || ans = "да"

/-- One `input()` call. -/
def readLine : (inputs : List String) →
    Option (String × {r : List String // r.length < inputs.length})
  | [] => none
  | c :: rest => some (c, ⟨rest, by simp⟩)

/-- `ask_modification_type`: re-prompts until `1`/`2`/`3`/`0`; `0` is the
exit choice (`none`). -/
def ask_modification_type : (inputs : List String) →
    Option (Option ModType × {r : List String // r.length < inputs.length})
  | [] => none
  | c :: rest =>
    let ch := pyStrip c
    if ch = "1" then some (some ModType.margins, ⟨rest, by simp⟩)
    else if ch = "2" then some (some ModType.hyphens, ⟨rest, by simp⟩)
    else if ch = "3" then some (some ModType.both, ⟨rest, by simp⟩)
    else if ch = "0" then some (none, ⟨rest, by simp⟩)
    else
      match ask_modification_type rest with
      | none => none
      | some (x, ⟨r, hr⟩) =>
        some (x, ⟨r, by exact Nat.lt_trans hr (by simp)⟩)

/-- `ask_margin_size`: empty input means the default 20, otherwise re-prompt
until `int(...)` succeeds. -/
def ask_margin_size : (inputs : List String) →
    Option (Int × {r : List String // r.length < inputs.length})
  | [] => none
  | c :: rest =>
    let ch := pyStrip c
    if ch = "" then some (20, ⟨rest, by simp⟩)
    else
      match pyToInt ch with
      | some n => some (n, ⟨rest, by simp⟩)
      | none =>
        match ask_margin_size rest with
        | none => none
        | some (x, ⟨r, hr⟩) =>
          some (x, ⟨r, by exact Nat.lt_trans hr (by simp)⟩)

/-- The margin question is only asked for the `margins` and `both` kinds;
otherwise the default 20 is kept with no input consumed. -/
def marginStep (mt : ModType) (inputs : List String) :
    Option (Int × {r : List String // r.length ≤ inputs.length}) :=
  match mt with
  | ModType.hyphens => some (20, ⟨inputs, Nat.le_refl _⟩)
  | ModType.margins =>
    match ask_margin_size inputs with
    | none => none
    | some (x, ⟨r, hr⟩) => some (x, ⟨r, Nat.le_of_lt hr⟩)
  | ModType.both =>
    match ask_margin_size inputs with
    | none => none
    | some (x, ⟨r, hr⟩) => some (x, ⟨r, Nat.le_of_lt hr⟩)

/-- `ask_output_mode`: re-prompts until `1` (folder), `2` (replace) or `0`
(back, `none`). -/
def ask_output_mode : (inputs : List String) →
    Option (Option OutMode × {r : List String // r.length < inputs.length})
  | [] => none
  | c :: rest =>
    let ch := pyStrip c
    if ch = "1" then some (some OutMode.folder, ⟨rest, by simp⟩)
    else if ch = "2" then some (some OutMode.replace, ⟨rest, by simp⟩)
    else if ch = "0" then some (none, ⟨rest, by simp⟩)
    else
      match ask_output_mode rest with
      | none => none
      | some (x, ⟨r, hr⟩) =>
        some (x, ⟨r, by exact Nat.lt_trans hr (by simp)⟩)

/-- `ask_file_selection`: `0` is back (`none`), `len+1` selects all files, a
valid 1-based index selects one file; anything else re-prompts. -/
def ask_file_selection (files : List String) : (inputs : List String) →
    Option (Option (List String) × {r : List String // r.length < inputs.length})
  | [] => none
  | c :: rest =>
    let ch := pyStrip c
    if ch = "0" then some (none, ⟨rest, by simp⟩)
    else if ch = toString (files.length + 1) then some (some files, ⟨rest, by simp⟩)
    else
      match pyToInt ch with
      | some n =>
        if 0 ≤ n - 1 ∧ n - 1 < (files.length : Int) then
          some (some [files.getD (n - 1).toNat ""], ⟨rest, by simp⟩)
        else
          match ask_file_selection files rest with
          | none => none
          | some (x, ⟨r, hr⟩) =>
            some (x, ⟨r, by exact Nat.lt_trans hr (by simp)⟩)
      | none =>
        match ask_file_selection files rest with
        | none => none
        | some (x, ⟨r, hr⟩) =>
          some (x, ⟨r, by exact Nat.lt_trans hr (by simp)⟩)

/-- The interactive `while True` loop of `main`, from the modification-type
menu onward.  Produced events: the overwrite confirmation prompt with the
user's normalized answer, and each batch start.  A non-affirming overwrite
answer or a `0`/back answer loops back to the menu; a declining final or
continue confirmation behaves as in the source. -/
def interactiveLoop (files : List String) (inputs : List String) : List Ev :=
  match ask_modification_type inputs with
  | none => []
  | some (none, _) => []
  | some (some mt, ⟨r1, _hr1⟩) =>
    match marginStep mt r1 with
    | none => []
    | some (_, ⟨r2, _hr2⟩) =>
      match ask_output_mode r2 with
      | none => []
      | some (none, ⟨r3, _⟩) => interactiveLoop files r3
      | some (some om, ⟨r3, _hr3⟩) =>
        match om with
        | OutMode.replace =>
          match readLine r3 with
          | none => []
          | some (c, ⟨r4, _hr4⟩) =>
            let ans := pyLower (pyStrip c)
            if affirmReplace ans then
              Ev.replacePrompt ans ::
                (match ask_file_selection files r4 with
                 | none => []
                 | some (none, ⟨r5, _⟩) => interactiveLoop files r5
                 | some (some sel, ⟨r5, _hr5⟩) =>
                   match readLine r5 with
                   | none => []
                   | some (c2, ⟨r6, _hr6⟩) =>
                     if affirmYes (pyLower (pyStrip c2)) then
                       Ev.procBatch OutMode.replace sel ::
                         (match readLine r6 with
                          | none => []
                          | some (c3, ⟨r7, _hr7⟩) =>
                            if affirmYes (pyLower (pyStrip c3)) then
                              interactiveLoop files r7
                            else [])
                     else interactiveLoop files r6)
            else Ev.replacePrompt ans :: interactiveLoop files r4
        | OutMode.folder =>
          match ask_file_selection files r3 with
          | none => []
          | some (none, ⟨r5, _⟩) => interactiveLoop files r5
          | some (some sel, ⟨r5, _hr5⟩) =>
            match readLine r5 with
            | none => []
            | some (c2, ⟨r6, _hr6⟩) =>
              if affirmYes (pyLower (pyStrip c2)) then
                Ev.procBatch OutMode.folder sel ::
                  (match readLine r6 with
                   | none => []
                   | some (c3, ⟨r7, _hr7⟩) =>
                     if affirmYes (pyLower (pyStrip c3)) then
                       interactiveLoop files r7
                     else [])
              else interactiveLoop files r6
  termination_by inputs.length
  decreasing_by all_goals omega

/-- The safety property of C9: in an interactive session trace, every
replace-mode batch start is immediately preceded by the dedicated overwrite
confirmation prompt answered affirmatively. -/
def GoodT (t : List Ev) : Prop :=
  ∀ l1 l2 mode sel, t = l1 ++ Ev.procBatch mode sel :: l2 →
    mode = OutMode.replace →
    ∃ l0 ans, l1 = l0 ++ [Ev.replacePrompt ans] ∧ affirmReplace ans = true

/-! ### Theorems -/

/-! #### Association-list lemmas for the directory model -/

lemma lookupFS_eq_some_of_mem {ar : Archive} {p v : String}
    (hnd : (ar.map Prod.fst).Nodup) (hm : (p, v) ∈ ar) : lookupFS ar p = some v := by
  induction ar with
  | nil => simp at hm
  | cons e rest ih =>
    rw [List.map_cons, List.nodup_cons] at hnd
    rcases List.mem_cons.mp hm with h | h
    · rw [← h]; simp [lookupFS]
    · have hne : e.1 ≠ p := fun hep => hnd.1 (hep ▸ List.mem_map_of_mem Prod.fst h)
      simp [lookupFS, hne, ih hnd.2 h]

lemma mem_of_lookupFS {ar : Archive} {p v : String}
    (h : lookupFS ar p = some v) : (p, v) ∈ ar := by
  induction ar with
  | nil => simp [lookupFS] at h
  | cons e rest ih =>
    by_cases hep : e.1 = p
    · simp [lookupFS, hep] at h
      exact List.mem_cons.mpr (Or.inl (by simp [← hep, ← h]))
    · simp [lookupFS, hep] at h
      exact List.mem_cons_of_mem _ (ih h)

lemma lookupFS_eq_none_iff {ar : Archive} {p : String} :
    lookupFS ar p = none ↔ p ∉ ar.map Prod.fst := by
  induction ar with
  | nil => simp [lookupFS]
  | cons e rest ih =>
    by_cases hep : e.1 = p
    · subst hep
      simp [lookupFS]
    · have hps : ¬ p = e.1 := fun h => hep h.symm
      simp [lookupFS, hep, ih, hps]

lemma lookupFS_append_left {a b : Archive} {p v : String}
    (h : lookupFS a p = some v) : lookupFS (a ++ b) p = some v := by
  induction a with
  | nil => simp [lookupFS] at h
  | cons e rest ih =>
    by_cases hep : e.1 = p <;> simp_all [lookupFS]

lemma lookupFS_append_of_none {a b : Archive} {p : String}
    (h : lookupFS a p = none) : lookupFS (a ++ b) p = lookupFS b p := by
  induction a with
  | nil => rfl
  | cons e rest ih =>
    by_cases hep : e.1 = p <;> simp_all [lookupFS]

lemma lookupFS_mapAppend_ne {fs : Archive} {p q frag : String} (h : q ≠ p) :
    lookupFS (fs.map (fun e => if e.1 = p then (e.1, e.2 ++ frag) else e)) q =
      lookupFS fs q := by
  induction fs with
  | nil => rfl
  | cons e rest ih =>
    rw [List.map_cons]
    by_cases hep : e.1 = p
    · rw [if_pos hep]
      have hne : ¬ e.1 = q := fun hq => h (hq.symm.trans hep)
      show (if e.1 = q then some (e.2 ++ frag) else _) =
        (if e.1 = q then some e.2 else lookupFS rest q)
      rw [if_neg hne, if_neg hne, ih]
    · rw [if_neg hep]
      show (if e.1 = q then some e.2 else _) =
        (if e.1 = q then some e.2 else lookupFS rest q)
      by_cases heq : e.1 = q
      · rw [if_pos heq, if_pos heq]
      · rw [if_neg heq, if_neg heq, ih]

lemma css_mem_fsAfterCss {ar : Archive} {frag : String} :
    (resolvedCssPath ar, resolvedCssBase ar ++ frag) ∈ fsAfterCss ar frag := by
  unfold fsAfterCss resolvedCssPath resolvedCssBase
  cases hf : find_css_file ar with
  | none => simp [hf]
  | some p =>
    have hp : (lookupFS ar p).isSome := by simpa using List.find?_some hf
    obtain ⟨v, hv⟩ := Option.isSome_iff_exists.mp hp
    simp only [hf, Option.getD_some, hv]
    exact List.mem_map.mpr ⟨(p, v), mem_of_lookupFS hv, by simp⟩

lemma mem_fsAfterCss_of_ne {ar : Archive} {frag : String} {e : String × String}
    (he : e ∈ ar) (hne : e.1 ≠ resolvedCssPath ar) : e ∈ fsAfterCss ar frag := by
  unfold fsAfterCss
  unfold resolvedCssPath at hne
  cases hf : find_css_file ar with
  | none => exact List.mem_append_left _ he
  | some p =>
    rw [hf] at hne
    simp only [Option.getD_some] at hne
    exact List.mem_map.mpr ⟨e, he, by simp [hne]⟩

lemma lookupFS_fsAfterCss_ne {ar : Archive} {frag q : String}
    (hq : q ≠ resolvedCssPath ar) :
    lookupFS (fsAfterCss ar frag) q = lookupFS ar q := by
  unfold fsAfterCss
  unfold resolvedCssPath at hq
  cases hf : find_css_file ar with
  | some p =>
    rw [hf] at hq
    simp only [Option.getD_some] at hq
    exact lookupFS_mapAppend_ne hq
  | none =>
    rw [hf] at hq
    simp only [Option.getD_none] at hq
    cases hl : lookupFS ar q with
    | some v => exact lookupFS_append_left hl
    | none => rw [lookupFS_append_of_none hl]; simp [lookupFS, Ne.symm hq]

lemma mem_repack_of_basename_ne {fs : Archive} {e : String × String}
    (he : e ∈ fs) (hb : basename e.1 ≠ "mimetype") :
    (⟨e.1, e.2, ZComp.deflated⟩ : ZEntry) ∈ repack fs := by
  unfold repack
  refine List.mem_append_right _ ?_
  exact List.mem_map_of_mem _ (List.mem_filter.mpr ⟨he, by simp [hb]⟩)

lemma repack_head_of_mimetype {fs : Archive} {d : String}
    (h : lookupFS fs "mimetype" = some d) :
    repack fs = ⟨"mimetype", d, ZComp.stored⟩ ::
      (fs.filter (fun e => basename e.1 != "mimetype")).map
        (fun e => ⟨e.1, e.2, ZComp.deflated⟩) := by
  unfold repack
  rw [h]
  rfl

lemma basename_resolvedCssPath (ar : Archive) :
    basename (resolvedCssPath ar) = "style.css" := by
  unfold resolvedCssPath
  cases hf : find_css_file ar with
  | none => rfl
  | some p =>
    have hp : p ∈ cssCandidates := List.mem_of_find?_eq_some hf
    simp only [cssCandidates, List.mem_cons, List.mem_singleton] at hp
    rcases hp with rfl | rfl | rfl | hp
    · rfl
    · rfl
    · rfl
    · simp at hp; rw [hp]; rfl

/-- Shared core of the C1 statement, for an arbitrary appended fragment. -/
lemma processArchive_entries (ar : Archive) (frag : String)
    (hnd : (ar.map Prod.fst).Nodup)
    (hroot : ∀ e ∈ ar, basename e.1 = "mimetype" → e.1 = "mimetype") :
    (∀ e ∈ ar, e.1 ≠ resolvedCssPath ar →
      (e.1, e.2) ∈ entryPairs (processArchive ar frag)) ∧
    (resolvedCssPath ar, resolvedCssBase ar ++ frag) ∈
      entryPairs (processArchive ar frag) := by
  constructor
  · rintro ⟨n, c⟩ he hne
    by_cases hmt : n = "mimetype"
    · subst hmt
      have h1 : lookupFS ar "mimetype" = some c := lookupFS_eq_some_of_mem hnd he
      have h2 : lookupFS (fsAfterCss ar frag) "mimetype" = some c := by
        rw [lookupFS_fsAfterCss_ne hne]; exact h1
      unfold processArchive
      rw [repack_head_of_mimetype h2]
      exact List.mem_map_of_mem _ (List.mem_cons_self _ _)
    · have hb : basename n ≠ "mimetype" := fun hbn => hmt (hroot (n, c) he hbn)
      have h1 : ((n, c) : String × String) ∈ fsAfterCss ar frag :=
        mem_fsAfterCss_of_ne he hne
      exact List.mem_map_of_mem _ (mem_repack_of_basename_ne h1 hb)
  · have h1 := @css_mem_fsAfterCss ar frag
    have hb : basename (resolvedCssPath ar) ≠ "mimetype" := by
      rw [basename_resolvedCssPath]; decide
    exact List.mem_map_of_mem _ (mem_repack_of_basename_ne h1 hb)

/-- Sanity check that the segmented transcription of the margin f-string
produces exactly the source text (shown here at size 20). -/
lemma get_margin_css_text :
    get_margin_css 20 =
      "\n/* Уменьшенные поля для Kindle */\nhtml, body \x7b\n    margin-left: -20px !important;\n    margin-right: -20px !important;\n    padding: 0 !important;\n\x7d\n" := rfl

/-- Sanity check of the combined f-string transcription at size 20. -/
lemma get_combined_css_text :
    get_combined_css 20 =
      "\n/* Уменьшенные поля для Kindle */\nhtml, body \x7b\n    margin-left: -20px !important;\n    margin-right: -20px !important;\n    padding: 0 !important;\n\x7d\n\n/* Отключение переносов слов для Kindle */\n* \x7b\n    -webkit-hyphens: none !important;\n    -moz-hyphens: none !important;\n    -ms-hyphens: none !important;\n    hyphens: none !important;\n    word-break: keep-all !important;\n    overflow-wrap: normal !important;\n\x7d\n\np, div, span, td, th \x7b\n    -webkit-hyphens: none !important;\n    -moz-hyphens: none !important;\n    -ms-hyphens: none !important;\n    hyphens: none !important;\n    word-break: keep-all !important;\n\x7d\n" := rfl

/-- C1 counterexample: the claim as stated fails on a well-formed source
archive containing a non-root entry whose basename is `mimetype`.  The ZIP
rebuilding walk skips every file named `mimetype`, not just the root one, so
`OPS/mimetype` is silently dropped from the output even though it is not the
resolved stylesheet. -/
theorem entry_preservation_counterexample :
    validEpub [("mimetype", "application/epub+zip"), ("OPS/style.css", "b"),
      ("OPS/mimetype", "x")] ∧
    (0 : Int) ≤ 20 ∧
    ("OPS/mimetype", "x") ∈ ([("mimetype", "application/epub+zip"),
      ("OPS/style.css", "b"), ("OPS/mimetype", "x")] : Archive) ∧
    "OPS/mimetype" ≠ resolvedCssPath [("mimetype", "application/epub+zip"),
      ("OPS/style.css", "b"), ("OPS/mimetype", "x")] ∧
    ("OPS/mimetype", "x") ∉ entryPairs (cliProcessEpub
      [("mimetype", "application/epub+zip"), ("OPS/style.css", "b"),
        ("OPS/mimetype", "x")] 20) := by
  refine ⟨by decide, by decide, by decide, by decide, by decide⟩

/-- C1 (amended): for a well-formed source archive none of whose non-root
entries has basename `mimetype`, and any margin size, the output archive
contains every source entry other than the resolved stylesheet with
unchanged content, and contains the resolved stylesheet whose content is the
original bytes (or the auto-created placeholder) followed verbatim by the
generated CSS fragment. -/
theorem epub_transform_preserves_entries (ar : Archive) (m : Int) (_hm : 0 ≤ m)
    (hv : validEpub ar)
    (hroot : ∀ e ∈ ar, basename e.1 = "mimetype" → e.1 = "mimetype") :
    (∀ e ∈ ar, e.1 ≠ resolvedCssPath ar →
      (e.1, e.2) ∈ entryPairs (cliProcessEpub ar m)) ∧
    (resolvedCssPath ar, resolvedCssBase ar ++ get_margin_css m) ∈
      entryPairs (cliProcessEpub ar m) :=
  processArchive_entries ar (get_margin_css m) hv.1 hroot

/-- Witness for the amended C1 at a concrete two-entry archive. -/
theorem epub_transform_preserves_entries_witness :
    (∀ e ∈ ([("mimetype", "application/epub+zip"), ("OPS/style.css", "p")] : Archive),
      e.1 ≠ resolvedCssPath [("mimetype", "application/epub+zip"), ("OPS/style.css", "p")] →
      (e.1, e.2) ∈ entryPairs (cliProcessEpub
        [("mimetype", "application/epub+zip"), ("OPS/style.css", "p")] 20)) ∧
    (resolvedCssPath [("mimetype", "application/epub+zip"), ("OPS/style.css", "p")],
      resolvedCssBase [("mimetype", "application/epub+zip"), ("OPS/style.css", "p")] ++
        get_margin_css 20) ∈
      entryPairs (cliProcessEpub
        [("mimetype", "application/epub+zip"), ("OPS/style.css", "p")] 20) :=
  epub_transform_preserves_entries _ 20 (by decide) (by decide) (by decide)

/-- C2: when the source archive has a root `mimetype` entry, the rebuilt
archive's first entry is `mimetype`, stored without compression, with the
source bytes unchanged.  Stated for an arbitrary appended fragment, so it
covers `process_epub` of both scripts. -/
theorem mimetype_first_stored_unchanged (ar : Archive) (frag d : String)
    (hnd : (ar.map Prod.fst).Nodup) (hd : ("mimetype", d) ∈ ar) :
    (processArchive ar frag).head? = some ⟨"mimetype", d, ZComp.stored⟩ := by
  have h1 : lookupFS ar "mimetype" = some d := lookupFS_eq_some_of_mem hnd hd
  have hneq : "mimetype" ≠ resolvedCssPath ar := by
    intro h
    have hb := basename_resolvedCssPath ar
    rw [← h] at hb
    exact absurd hb (by decide)
  have h2 : lookupFS (fsAfterCss ar frag) "mimetype" = some d := by
    rw [lookupFS_fsAfterCss_ne hneq]; exact h1
  unfold processArchive
  rw [repack_head_of_mimetype h2]
  rfl

/-- Witness for C2 at a concrete archive. -/
theorem mimetype_first_stored_unchanged_witness :
    (processArchive [("mimetype", "application/epub+zip"), ("OPS/style.css", "p")]
      "X").head? = some ⟨"mimetype", "application/epub+zip", ZComp.stored⟩ :=
  mimetype_first_stored_unchanged _ _ _ (by decide) (by decide)

/-- C6: the stylesheet locator returns the first existing path of the fixed
ordered candidate list; when none of the four exists, `process_epub` creates
`OPS/style.css` whose content is the placeholder line, appends there, and
that path is the resolved one.  (Directories are not part of the flat
model; the parent-directory creation step has no observable counterpart.) -/
theorem stylesheet_locator_contract (fs : Archive) (frag : String) :
    ((lookupFS fs "OPS/style.css").isSome = true →
      find_css_file fs = some "OPS/style.css") ∧
    ((lookupFS fs "OPS/style.css").isSome = false →
     (lookupFS fs "OEBPS/style.css").isSome = true →
      find_css_file fs = some "OEBPS/style.css") ∧
    ((lookupFS fs "OPS/style.css").isSome = false →
     (lookupFS fs "OEBPS/style.css").isSome = false →
     (lookupFS fs "styles/style.css").isSome = true →
      find_css_file fs = some "styles/style.css") ∧
    ((lookupFS fs "OPS/style.css").isSome = false →
     (lookupFS fs "OEBPS/style.css").isSome = false →
     (lookupFS fs "styles/style.css").isSome = false →
     (lookupFS fs "css/style.css").isSome = true →
      find_css_file fs = some "css/style.css") ∧
    ((lookupFS fs "OPS/style.css").isSome = false →
     (lookupFS fs "OEBPS/style.css").isSome = false →
     (lookupFS fs "styles/style.css").isSome = false →
     (lookupFS fs "css/style.css").isSome = false →
      find_css_file fs = none ∧
      resolvedCssPath fs = "OPS/style.css" ∧
      lookupFS (fsAfterCss fs frag) "OPS/style.css" = some (autoCssText ++ frag)) := by
  refine ⟨fun h1 => ?_, fun h1 h2 => ?_, fun h1 h2 h3 => ?_,
    fun h1 h2 h3 h4 => ?_, fun h1 h2 h3 h4 => ?_⟩
  · simp [find_css_file, cssCandidates, List.find?, h1]
  · simp [find_css_file, cssCandidates, List.find?, h1, h2]
  · simp [find_css_file, cssCandidates, List.find?, h1, h2, h3]
  · simp [find_css_file, cssCandidates, List.find?, h1, h2, h3, h4]
  · have hf : find_css_file fs = none := by
      simp [find_css_file, cssCandidates, List.find?, h1, h2, h3, h4]
    refine ⟨hf, by simp [resolvedCssPath, hf], ?_⟩
    unfold fsAfterCss
    rw [hf]
    have hl : lookupFS fs "OPS/style.css" = none := by
      cases hll : lookupFS fs "OPS/style.css" with
      | none => rfl
      | some v => rw [hll] at h1; simp at h1
    rw [lookupFS_append_of_none hl]
    simp [lookupFS]

/-- Witness for C6: the fourth candidate wins when the first three are
absent, on a concrete one-entry directory. -/
theorem stylesheet_locator_contract_witness :
    find_css_file [("css/style.css", "z")] = some "css/style.css" :=
  (stylesheet_locator_contract [("css/style.css", "z")] "").2.2.2.1
    (by decide) (by decide) (by decide) (by decide)

/-- C4: for every margin size the margin CSS fragment contains, inside the
`html, body` block, the declarations `margin-left: -<size>px !important;`,
`margin-right: -<size>px !important;` and `padding: 0 !important;` (each with
the `!important` override marker), and for size 20 the two margin
declarations read exactly `margin-left: -20px` and `margin-right: -20px`. -/
theorem margin_css_fragment_declarations :
    (∀ m : Int,
      SubstrOf ("margin-left: -" ++ toString m ++ "px !important;") (get_margin_css m) ∧
      SubstrOf ("margin-right: -" ++ toString m ++ "px !important;") (get_margin_css m) ∧
      SubstrOf "padding: 0 !important;" (get_margin_css m) ∧
      SubstrOf "html, body \x7b" (get_margin_css m)) ∧
    SubstrOf "margin-left: -20px" (get_margin_css 20) ∧
    SubstrOf "margin-right: -20px" (get_margin_css 20) := by
  refine ⟨fun m => ⟨?_, ?_, ?_, ?_⟩, ?_, ?_⟩
  · refine ⟨"\n/* Уменьшенные поля для Kindle */\n" ++ "html, body \x7b" ++ "\n    ",
      "\n    " ++ ("margin-right: -" ++ toString m ++ "px !important;") ++
        "\n    " ++ "padding: 0 !important;" ++ "\n\x7d\n", ?_⟩
    unfold get_margin_css
    simp only [String.append_assoc]
  · refine ⟨"\n/* Уменьшенные поля для Kindle */\n" ++ "html, body \x7b" ++ "\n    " ++
        ("margin-left: -" ++ toString m ++ "px !important;") ++ "\n    ",
      "\n    " ++ "padding: 0 !important;" ++ "\n\x7d\n", ?_⟩
    unfold get_margin_css
    simp only [String.append_assoc]
  · refine ⟨"\n/* Уменьшенные поля для Kindle */\n" ++ "html, body \x7b" ++ "\n    " ++
        ("margin-left: -" ++ toString m ++ "px !important;") ++ "\n    " ++
        ("margin-right: -" ++ toString m ++ "px !important;") ++ "\n    ",
      "\n\x7d\n", ?_⟩
    unfold get_margin_css
    simp only [String.append_assoc]
  · refine ⟨"\n/* Уменьшенные поля для Kindle */\n",
      "\n    " ++ ("margin-left: -" ++ toString m ++ "px !important;") ++
        "\n    " ++ ("margin-right: -" ++ toString m ++ "px !important;") ++
        "\n    " ++ "padding: 0 !important;" ++ "\n\x7d\n", ?_⟩
    unfold get_margin_css
    simp only [String.append_assoc]
  · exact ⟨"\n/* Уменьшенные поля для Kindle */\nhtml, body \x7b\n    ",
      " !important;\n    margin-right: -20px !important;\n    padding: 0 !important;\n\x7d\n",
      rfl⟩
  · exact ⟨"\n/* Уменьшенные поля для Kindle */\nhtml, body \x7b\n    margin-left: -20px !important;\n    ",
      " !important;\n    padding: 0 !important;\n\x7d\n",
      rfl⟩

/-- C5: for every integer margin size, the combined CSS fragment (spelled out
as one template in the source) is exactly the margin fragment followed by the
hyphenation fragment. -/
theorem combined_css_is_margin_append_hyphenation (m : Int) :
    get_combined_css m = get_margin_css m ++ get_no_hyphenation_css := by
  unfold get_combined_css get_margin_css get_no_hyphenation_css
  simp only [String.append_assoc]
  rfl

/-! #### Batch loop lemmas and C7 -/

lemma runBatch_count (files : List (Option Archive)) (frag : String) :
    (runBatch files frag).1 = files.countP (fun f => f.isSome) := by
  induction files with
  | nil => rfl
  | cons f rest ih =>
    cases f with
    | none => simp [runBatch, tryProcess, List.countP_cons, ih]
    | some ar => simp [runBatch, tryProcess, List.countP_cons, ih]

lemma runBatch_outputs (files : List (Option Archive)) (frag : String) :
    (runBatch files frag).2 =
      (files.filterMap id).map (fun ar => processArchive ar frag) := by
  induction files with
  | nil => rfl
  | cons f rest ih =>
    cases f with
    | none => simp [runBatch, tryProcess, ih]
    | some ar => simp [runBatch, tryProcess, ih]

lemma countP_isSome_add_not (files : List (Option Archive)) :
    files.countP (fun f => f.isSome) + files.countP (fun f => f.isNone) =
      files.length := by
  induction files with
  | nil => rfl
  | cons f rest ih =>
    cases f <;> simp [List.countP_cons] <;> omega

/-- C7: a batch in which exactly one file fails to open completes with a
reported success count of N−1, and the outputs of all other files are
produced, in order. -/
theorem batch_single_failure_reports_n_minus_one (files : List (Option Archive))
    (frag : String) (h : files.countP (fun f => f.isNone) = 1) :
    (runBatch files frag).1 = files.length - 1 ∧
    (runBatch files frag).2 =
      (files.filterMap id).map (fun ar => processArchive ar frag) := by
  refine ⟨?_, runBatch_outputs files frag⟩
  rw [runBatch_count]
  have hlen := countP_isSome_add_not files
  omega

/-- Witness for C7: three files, the middle one corrupt. -/
theorem batch_single_failure_witness :
    (runBatch [some [("mimetype", "m")], none, some []] "X").1 = 3 - 1 ∧
    (runBatch [some [("mimetype", "m")], none, some []] "X").2 =
      (([some [("mimetype", "m")], none, some []] : List (Option Archive)).filterMap
        id).map (fun ar => processArchive ar "X") :=
  batch_single_failure_reports_n_minus_one _ "X" (by decide)

/-! #### Path lemmas and C10 -/

lemma splitLastChar_eq_none_iff {sep : Char} {cs : List Char} :
    splitLastChar sep cs = none ↔ sep ∉ cs := by
  induction cs with
  | nil => simp [splitLastChar]
  | cons c rest ih =>
    cases hr : splitLastChar sep rest with
    | some ba =>
      obtain ⟨b1, a1⟩ := ba
      have hmem : sep ∈ rest := by
        by_contra hn
        rw [ih.mpr hn] at hr
        exact absurd hr (by simp)
      simp [splitLastChar, hr, hmem]
    | none =>
      have hnm : sep ∉ rest := ih.mp hr
      by_cases hc : c = sep
      · simp [splitLastChar, hr, hc]
      · simp [splitLastChar, hr, hc, hnm, Ne.symm hc]

lemma splitLastChar_spec {sep : Char} :
    ∀ {cs b a : List Char}, splitLastChar sep cs = some (b, a) →
      cs = b ++ sep :: a ∧ sep ∉ a := by
  intro cs
  induction cs with
  | nil => intro b a h; simp [splitLastChar] at h
  | cons c rest ih =>
    intro b a h
    cases hr : splitLastChar sep rest with
    | some ba =>
      obtain ⟨b1, a1⟩ := ba
      simp only [splitLastChar, hr, Option.some.injEq, Prod.mk.injEq] at h
      obtain ⟨rfl, rfl⟩ := h
      obtain ⟨h1, h2⟩ := ih hr
      exact ⟨by rw [h1, List.cons_append], h2⟩
    | none =>
      simp only [splitLastChar, hr] at h
      by_cases hc : c = sep
      · rw [if_pos hc] at h
        simp only [Option.some.injEq, Prod.mk.injEq] at h
        obtain ⟨rfl, rfl⟩ := h
        exact ⟨by rw [hc]; rfl, splitLastChar_eq_none_iff.mp hr⟩
      · rw [if_neg hc] at h
        exact absurd h (by simp)

lemma splitLastChar_append {sep : Char} {ys : List Char} (hy : sep ∉ ys) :
    ∀ xs : List Char, splitLastChar sep (xs ++ sep :: ys) = some (xs, ys) := by
  intro xs
  induction xs with
  | nil =>
    simp [splitLastChar, splitLastChar_eq_none_iff.mpr hy]
  | cons x xs ih =>
    simp [splitLastChar, ih]

lemma strMk_data (s : String) : String.mk s.data = s := by
  cases s; rfl

lemma string_eq_of_data {s t : String} (h : s.data = t.data) : s = t := by
  cases s; cases t; exact congrArg String.mk h

lemma pyStem_data_subset {n : String} {c : Char} (hc : c ∈ (pyStem n).data) :
    c ∈ n.data := by
  unfold pyStem at hc
  cases hs : splitLastChar '.' n.data with
  | none => rw [hs] at hc; exact hc
  | some ba =>
    obtain ⟨b1, a1⟩ := ba
    rw [hs] at hc
    by_cases hne : b1 ≠ [] ∧ a1 ≠ []
    · simp only [if_pos hne] at hc
      have h1 := (splitLastChar_spec hs).1
      rw [h1]
      exact List.mem_append_left _ hc
    · simp only [if_neg hne] at hc; exact hc

lemma pyName_of_no_slash {s : String} (h : '/' ∉ s.data) : pyName s = s := by
  unfold pyName
  rw [splitLastChar_eq_none_iff.mpr h]

lemma pyName_eq_of_data {s : String} {d nd : List Char}
    (h : s.data = d ++ '/' :: nd) (hnd : '/' ∉ nd) : pyName s = String.mk nd := by
  unfold pyName
  rw [h, splitLastChar_append hnd]

lemma pyName_no_slash (p : String) : '/' ∉ (pyName p).data := by
  unfold pyName
  cases hs : splitLastChar '/' p.data with
  | none => exact splitLastChar_eq_none_iff.mp hs
  | some ba =>
    obtain ⟨b1, a1⟩ := ba
    exact (splitLastChar_spec hs).2

lemma upgrade_name_no_slash (p : String) :
    '/' ∉ (pyStem (pyName p) ++ "-upgrade.epub").data := by
  rw [String.data_append]
  intro hmem
  rcases List.mem_append.mp hmem with h | h
  · exact pyName_no_slash p (pyStem_data_subset h)
  · exact absurd h (by decide)

lemma stem_upgrade_ne (n : String) : pyStem n ++ "-upgrade.epub" ≠ n := by
  intro h
  have hd : (pyStem n).data ++ "-upgrade.epub".data = n.data := by
    rw [← String.data_append, h]
  cases hs : splitLastChar '.' n.data with
  | none =>
    have hstem : pyStem n = n := by unfold pyStem; rw [hs]
    rw [hstem] at hd
    have := congrArg List.length hd
    simp at this
  | some ba =>
    obtain ⟨b1, a1⟩ := ba
    by_cases hne : b1 ≠ [] ∧ a1 ≠ []
    · have hstem : pyStem n = String.mk b1 := by
        unfold pyStem
        rw [hs]
        simp [hne]
      rw [hstem] at hd
      have h1 := (splitLastChar_spec hs).1
      rw [h1] at hd
      have hd2 : b1 ++ "-upgrade.epub".data = b1 ++ '.' :: a1 := hd
      have h2 : ("-upgrade.epub").data = '.' :: a1 := List.append_cancel_left hd2
      have hh := congrArg List.head? h2
      simp at hh
    · have hstem : pyStem n = n := by
        unfold pyStem
        rw [hs]
        simp [hne]
      rw [hstem] at hd
      have := congrArg List.length hd
      simp at this

/-- C10: the CLI output path keeps the input's directory, renames the file
to `stem + "-upgrade.epub"`, never equals the input path, and the input path
is not among the paths the CLI transform writes. -/
theorem cli_output_path_separate (p : String) (_h1 : p ≠ "")
    (_h2 : p.data.getLast? ≠ some '/') :
    pyName (cliOutputPath p) = pyStem (pyName p) ++ "-upgrade.epub" ∧
    cliOutputPath p ≠ p ∧
    p ∉ cliWrites p := by
  have hslash := upgrade_name_no_slash p
  have hmain : pyName (cliOutputPath p) = pyStem (pyName p) ++ "-upgrade.epub" ∧
      cliOutputPath p ≠ p := by
    cases hs : splitLastChar '/' p.data with
    | none =>
      have hout : cliOutputPath p = pyStem (pyName p) ++ "-upgrade.epub" := by
        unfold cliOutputPath; rw [hs]
      have hpn : pyName p = p := by
        unfold pyName; rw [hs]
      constructor
      · rw [hout]
        exact pyName_of_no_slash hslash
      · rw [hout, hpn]
        exact stem_upgrade_ne p
    | some da =>
      obtain ⟨d, a⟩ := da
      have hout : cliOutputPath p =
          String.mk d ++ "/" ++ (pyStem (pyName p) ++ "-upgrade.epub") := by
        unfold cliOutputPath; rw [hs]
      have hpn : pyName p = String.mk a := by
        unfold pyName; rw [hs]
      have hspec := splitLastChar_spec hs
      have hdata : (cliOutputPath p).data =
          d ++ '/' :: (pyStem (pyName p) ++ "-upgrade.epub").data := by
        rw [hout, String.data_append, String.data_append]
        simp
      constructor
      · rw [pyName_eq_of_data hdata hslash]
      · intro heq
        have hd2 : d ++ '/' :: (pyStem (pyName p) ++ "-upgrade.epub").data =
            d ++ '/' :: a := by
          rw [← hdata, heq, hspec.1]
        have h3 : (pyStem (pyName p) ++ "-upgrade.epub").data = a := by
          have hh := List.append_cancel_left hd2
          injection hh with h31 h32
        have h4 : pyStem (pyName p) ++ "-upgrade.epub" = pyName p := by
          apply string_eq_of_data
          rw [h3, hpn]
        exact stem_upgrade_ne (pyName p) h4
  refine ⟨hmain.1, hmain.2, ?_⟩
  intro hmem
  rcases List.mem_cons.mp hmem with h | h
  · exact hmain.2 h.symm
  · simp at h

/-- Witness for C10 at `book.epub`. -/
theorem cli_output_path_separate_witness :
    pyName (cliOutputPath "book.epub") = pyStem (pyName "book.epub") ++ "-upgrade.epub" ∧
    cliOutputPath "book.epub" ≠ "book.epub" ∧
    "book.epub" ∉ cliWrites "book.epub" :=
  cli_output_path_separate "book.epub" (by decide) (by decide)

/-! #### CLI argument parsing, discovery filtering: C3 and C8 -/

lemma cliResolve_ok_spec {xs : String → Bool} {files1 : List String} {margin m : Int}
    {files : List String}
    (h : cliResolve xs files1 margin = Except.ok (m, files)) :
    files ≠ [] ∧ ∀ f ∈ files,
      ((xs f && strEndsWith (pyLower f) ".epub") &&
        !strEndsWith f "-upgrade.epub") = true := by
  unfold cliResolve at h
  split at h
  · exact absurd h (by simp)
  · split at h
    · exact absurd h (by simp)
    · rename_i hne
      have h2 : files = files1.eraseDups.filter (fun f =>
          (xs f && strEndsWith (pyLower f) ".epub") &&
            !strEndsWith f "-upgrade.epub") := by
        have := (Except.ok.inj h)
        exact (congrArg Prod.snd this).symm
      constructor
      · intro hnil
        rw [h2] at hnil
        rw [hnil] at hne
        exact hne rfl
      · intro f hf
        rw [h2] at hf
        exact (List.mem_filter.mp hf).2

lemma cliMain_ok_spec {gl : String → List String} {xs : String → Bool}
    {listing args : List String} {m : Int} {files : List String}
    (h : cliMain gl xs listing args = Except.ok (m, files)) :
    files ≠ [] ∧ ∀ f ∈ files,
      ((xs f && strEndsWith (pyLower f) ".epub") &&
        !strEndsWith f "-upgrade.epub") = true := by
  unfold cliMain at h
  cases hp : parseArgs gl args [] 20 with
  | error c => rw [hp] at h; exact absurd h (by simp)
  | ok fm =>
    obtain ⟨files0, margin⟩ := fm
    rw [hp] at h
    exact cliResolve_ok_spec h

lemma parseArgs_bad {args : List String} (hb : BadMargin args)
    (gl : String → List String) :
    ∀ files margin, parseArgs gl args files margin = Except.error 1 := by
  induction hb with
  | missing =>
    intro files margin
    simp [parseArgs]
  | bad v rest h =>
    intro files margin
    simp [parseArgs, h]
  | good v rest m h hr ih =>
    intro files margin
    simp [parseArgs, h]
    exact ih _ _
  | skip a rest h1 h2 h3 hr ih =>
    intro files margin
    have hcond : ¬(a = "--help" ∨ a = "-h") := by
      rintro (hx | hx)
      · exact h2 hx
      · exact h3 hx
    unfold parseArgs
    rw [if_neg hcond, if_neg h1]
    by_cases hall : a = "--all"
    · rw [if_pos hall]; exact ih _ _
    · rw [if_neg hall]
      cases hw : strContains a "*"
      · simp only [hw, Bool.false_eq_true, if_false]
        exact ih _ _
      · simp only [hw, if_true]
        exact ih _ _

/-- C8 counterexample: an invocation whose `--margin` value is unparseable
but which exits with status 0, because `--help` comes first; the claim as
stated demands a non-zero exit for every such invocation. -/
theorem cli_margin_help_counterexample :
    cliMain (fun _ => []) (fun _ => false) [] ["--help", "--margin", "x"] =
      Except.error 0 ∧ pyToInt "x" = none := by
  constructor
  · rfl
  · rfl

/-- C8 (amended): reaching a `--margin` with a missing or unparseable value
before any `--help`/`-h` makes the CLI exit with status 1 before processing
any file; and whenever `main` proceeds past discovery and filtering, the
resolved file list is non-empty (an empty resolution exits non-zero). -/
theorem cli_errors_exit_nonzero (gl : String → List String) (xs : String → Bool)
    (listing args : List String) :
    (BadMargin args → cliMain gl xs listing args = Except.error 1) ∧
    (∀ m files, cliMain gl xs listing args = Except.ok (m, files) → files ≠ []) := by
  constructor
  · intro hb
    unfold cliMain
    rw [parseArgs_bad hb gl [] 20]
  · intro m files h
    exact (cliMain_ok_spec h).1

/-- Witness for the amended C8: `--margin abc` exits with status 1. -/
theorem cli_errors_exit_nonzero_witness :
    cliMain (fun _ => []) (fun _ => false) [] ["--margin", "abc"] =
      Except.error 1 :=
  (cli_errors_exit_nonzero (fun _ => []) (fun _ => false) [] ["--margin", "abc"]).1
    (BadMargin.bad "abc" [] (by decide))

/-- C3 counterexample: the CLI script's `get_epub_files` is a bare
`glob.glob("*.epub")` with no exclusion, so a directory scan does return
`book-upgrade.epub` even though its name carries a recognized output
marker. -/
theorem discovery_marker_counterexample :
    strContains "book-upgrade.epub" "-upgrade.epub" = true ∧
    "book-upgrade.epub" ∈ cliGetEpubFiles ["book-upgrade.epub"] := by
  exact ⟨by decide, by decide⟩

/-- C3 (amended): the interactive script's scan excludes every name
containing one of its four output markers (so `book-upgrade.epub` never
appears); the CLI script's scan excludes nothing itself, but the later
filter in `main` drops every file ending in `-upgrade.epub`, so
`book-upgrade.epub` is never among the files the CLI processes. -/
theorem discovery_excludes_output_markers :
    (∀ listing f, f ∈ iaGetEpubFiles listing →
      (∀ mk ∈ iaMarkers, strContains f mk = false) ∧ f ≠ "book-upgrade.epub") ∧
    (∀ gl xs listing args m files,
      cliMain gl xs listing args = Except.ok (m, files) →
      ∀ f ∈ files, strEndsWith f "-upgrade.epub" = false ∧
        f ≠ "book-upgrade.epub") := by
  constructor
  · intro listing f hf
    have h1 : (iaMarkers.any (fun mk => strContains f mk)) = false := by
      have hm := List.mem_filter.mp hf
      simpa using hm.2
    have h2 : ∀ mk ∈ iaMarkers, strContains f mk = false := by
      intro mk hmk
      by_contra hne
      have : iaMarkers.any (fun mk => strContains f mk) = true :=
        List.any_eq_true.mpr ⟨mk, hmk, by
          cases hcc : strContains f mk
          · exact absurd hcc hne
          · rfl⟩
      rw [this] at h1
      exact absurd h1 (by simp)
    refine ⟨h2, ?_⟩
    intro heq
    have h3 := h2 "-upgrade.epub" (by decide)
    rw [heq] at h3
    exact absurd h3 (by decide)
  · intro gl xs listing args m files h f hf
    have hs := (cliMain_ok_spec h).2 f hf
    have h4 : strEndsWith f "-upgrade.epub" = false := by
      cases hcc : strEndsWith f "-upgrade.epub"
      · rfl
      · exfalso
        rw [hcc] at hs
        simp at hs
    refine ⟨h4, ?_⟩
    intro heq
    rw [heq] at h4
    exact absurd h4 (by decide)

/-- Witness for the amended C3 on a concrete listing. -/
theorem discovery_excludes_output_markers_witness :
    (∀ mk ∈ iaMarkers, strContains "book.epub" mk = false) ∧
    "book.epub" ≠ "book-upgrade.epub" :=
  discovery_excludes_output_markers.1 ["book.epub"] "book.epub" (by decide)

/-! #### Interactive overwrite confirmation: C9 -/

lemma goodT_nil : GoodT [] := by
  intro l1 l2 mode sel hdec _
  exact absurd hdec (by simp)

lemma goodT_cons {t : List Ev} (e : Ev)
    (he : ∀ sel, e ≠ Ev.procBatch OutMode.replace sel) (h : GoodT t) :
    GoodT (e :: t) := by
  intro l1 l2 mode sel hdec hmode
  subst hmode
  cases l1 with
  | nil =>
    simp only [List.nil_append] at hdec
    injection hdec with h1 h2
    exact absurd h1 (he sel)
  | cons x l1' =>
    rw [List.cons_append] at hdec
    injection hdec with h1 h2
    obtain ⟨l0, ans, hl, ha⟩ := h l1' l2 _ sel h2 rfl
    exact ⟨x :: l0, ans, by rw [hl, List.cons_append], ha⟩

lemma goodT_cons2 {t : List Ev} (ans : String) (sel : List String)
    (ha : affirmReplace ans = true) (h : GoodT t) :
    GoodT (Ev.replacePrompt ans :: Ev.procBatch OutMode.replace sel :: t) := by
  intro l1 l2 mode sel2 hdec hmode
  subst hmode
  cases l1 with
  | nil =>
    simp only [List.nil_append] at hdec
    injection hdec with h1 h2
    exact absurd h1 (by simp)
  | cons x l1' =>
    rw [List.cons_append] at hdec
    injection hdec with h1 h2
    subst h1
    cases l1' with
    | nil =>
      exact ⟨[], ans, rfl, ha⟩
    | cons y l1'' =>
      rw [List.cons_append] at h2
      injection h2 with h3 h4
      subst h3
      obtain ⟨l0, ans2, hl, ha2⟩ := h l1'' l2 _ sel2 h4 rfl
      exact ⟨Ev.replacePrompt ans :: Ev.procBatch OutMode.replace sel :: l0, ans2,
        by rw [hl]; simp, ha2⟩

/-- C9: for every sequence of user inputs, a replace-mode (overwrite) batch
run begins only immediately after the dedicated overwrite confirmation
prompt was answered affirmatively (`yes`/`да` after strip+lower); in
particular a non-affirming answer returns to the menu without any
replace-mode processing. -/
theorem overwrite_requires_affirmative_confirmation (files inputs : List String) :
    GoodT (interactiveLoop files inputs) := by
  induction inputs using interactiveLoop.induct with
  | files => exact files
  | case1 inp h1 =>
    unfold interactiveLoop
    simp only [h1]
    exact goodT_nil
  | case2 inp snd h1 =>
    unfold interactiveLoop
    simp only [h1]
    exact goodT_nil
  | case3 inp mt r1 hr1 h1 h2 =>
    unfold interactiveLoop
    simp only [h1, h2]
    exact goodT_nil
  | case4 inp mt r1 hr1 h1 ms r2 hr2 h2 h3 =>
    unfold interactiveLoop
    simp only [h1, h2, h3]
    exact goodT_nil
  | case5 inp mt r1 hr1 h1 ms r2 hr2 h2 r3 hr3 h3 ih1 =>
    unfold interactiveLoop
    simp only [h1, h2, h3]
    exact ih1
  | case6 inp mt r1 hr1 h1 ms r2 hr2 h2 r3 hr3 h4 h3 =>
    unfold interactiveLoop
    simp only [h1, h2, h3, h4]
    exact goodT_nil
  | case7 inp mt r1 hr1 h1 ms r2 hr2 h2 r3 hr3 c r4 hr4 h4 ans haff h3 ih3 ih2 ih1 =>
    unfold interactiveLoop
    simp only [h1, h2, h3, h4, haff, if_true]
    cases hsel : ask_file_selection files r4 with
    | none =>
      simp only [hsel]
      exact goodT_cons _ (by simp) goodT_nil
    | some xa =>
      obtain ⟨x, r5, hr5⟩ := xa
      cases x with
      | none =>
        simp only [hsel]
        exact goodT_cons _ (by simp) (ih3 r5 hr5)
      | some sel =>
        simp only [hsel]
        cases hread : readLine r5 with
        | none =>
          simp only [hread]
          exact goodT_cons _ (by simp) goodT_nil
        | some ca =>
          obtain ⟨c2, r6, hr6⟩ := ca
          simp only [hread]
          cases haff2 : affirmYes (pyLower (pyStrip c2)) with
          | false =>
            simp only [haff2, Bool.false_eq_true, if_false]
            exact goodT_cons _ (by simp) (ih1 r5 hr5 r6 hr6)
          | true =>
            simp only [haff2, if_true]
            cases hread2 : readLine r6 with
            | none =>
              simp only [hread2]
              exact goodT_cons2 _ _ haff goodT_nil
            | some cb =>
              obtain ⟨c3, r7, hr7⟩ := cb
              simp only [hread2]
              cases haff3 : affirmYes (pyLower (pyStrip c3)) with
              | false =>
                simp only [haff3, Bool.false_eq_true, if_false]
                exact goodT_cons2 _ _ haff goodT_nil
              | true =>
                simp only [haff3, if_true]
                exact goodT_cons2 _ _ haff (ih2 r5 hr5 r6 hr6 r7 hr7)
  | case8 inp mt r1 hr1 h1 ms r2 hr2 h2 r3 hr3 c r4 hr4 h4 ans haff h3 ih1 =>
    unfold interactiveLoop
    simp only [h1, h2, h3, h4]
    rw [if_neg haff]
    exact goodT_cons _ (by simp) ih1
  | case9 inp mt r1 hr1 h1 ms r2 hr2 h2 r3 hr3 h4 h3 =>
    unfold interactiveLoop
    simp only [h1, h2, h3, h4]
    exact goodT_nil
  | case10 inp mt r1 hr1 h1 ms r2 hr2 h2 r3 hr3 r5 hr5 h4 h3 ih1 =>
    unfold interactiveLoop
    simp only [h1, h2, h3, h4]
    exact ih1
  | case11 inp mt r1 hr1 h1 ms r2 hr2 h2 r3 hr3 sel r5 hr5 h4 h5 h3 =>
    unfold interactiveLoop
    simp only [h1, h2, h3, h4, h5]
    exact goodT_nil
  | case12 inp mt r1 hr1 h1 ms r2 hr2 h2 r3 hr3 sel r5 hr5 h4 c2 r6 hr6 h5 haff h3 ih1 =>
    unfold interactiveLoop
    simp only [h1, h2, h3, h4, h5, haff, if_true]
    cases hread2 : readLine r6 with
    | none =>
      simp only [hread2]
      exact goodT_cons _ (by simp) goodT_nil
    | some cb =>
      obtain ⟨c3, r7, hr7⟩ := cb
      simp only [hread2]
      cases haff3 : affirmYes (pyLower (pyStrip c3)) with
      | false =>
        simp only [haff3, Bool.false_eq_true, if_false]
        exact goodT_cons _ (by simp) goodT_nil
      | true =>
        simp only [haff3, if_true]
        exact goodT_cons _ (by simp) (ih1 r7 hr7)
  | case13 inp mt r1 hr1 h1 ms r2 hr2 h2 r3 hr3 sel r5 hr5 h4 c2 r6 hr6 h5 haff h3 ih1 =>
    unfold interactiveLoop
    simp only [h1, h2, h3, h4, h5]
    rw [if_neg haff]
    exact ih1

/-- Witness for C9 on a concrete session script (margins, default size,
replace mode, declined confirmation). -/
theorem overwrite_requires_affirmative_confirmation_witness :
    GoodT (interactiveLoop ["a.epub"] ["1", "", "2", "no"]) :=
  overwrite_requires_affirmative_confirmation ["a.epub"] ["1", "", "2", "no"]

end EpubKindle
